import Mathlib

/-!
Verification of the GradAlign adversarial trainer
(`defenses/trainers/gradalign_adv_trainer.py`).

The tensor computation of `_do_iter` is shallowly embedded over ℚ:
a sample is the flattened (C,H,W) list of its entries, a batch is a
list of samples.  The numeric primitives that the tensor library
supplies (`** 0.5`, `exp`, `log`) are taken as abstract functions
`fsqrt`, `fexp`, `flog : ℚ → ℚ`; every use in the embedding mirrors a
use in the source.  Calls into the autodiff engine
(`torch.autograd.grad`) and into the model are opaque from this file's
point of view, so they enter the embedding as function parameters; the
semantics of `create_graph=True` differentiation is treated separately
by a deep embedding of differentiable expressions further below.
`detach` and `.data` are identities on values and are noted where the
source uses them.
-/

namespace GradAlign

/-- Scalar `torch.clamp(x, lo, hi)`: `lo` if `x < lo`, `hi` if
`hi < x`, else `x`. -/
def clampQ (lo hi x : ℚ) : ℚ := if x < lo then lo else if hi < x then hi else x

/-- Scalar `torch.sign`: -1, 0 or 1 according to the sign of `x`. -/
def signQ (x : ℚ) : ℚ := if x < 0 then -1 else if 0 < x then 1 else 0

/-- A sample: the flattened (C,H,W) entries of one image-shaped tensor. -/
abbrev Sample := List ℚ

/-- A batch: dimension 0 of a (N,C,H,W) tensor. -/
abbrev Batch := List Sample

/-- Elementwise sum of two samples. -/
def addS (a b : Sample) : Sample := List.zipWith (fun x y => x + y) a b

/-- Elementwise difference of two samples. -/
def subS (a b : Sample) : Sample := List.zipWith (fun x y => x - y) a b

/-- Multiply every entry of a sample by the scalar `c`. -/
def scaleS (c : ℚ) (a : Sample) : Sample := List.map (fun x => c * x) a

/-- Elementwise `torch.sign` of a sample. -/
def signS (a : Sample) : Sample := List.map signQ a

/-- Elementwise clamp of a sample. -/
def clampS (lo hi : ℚ) (a : Sample) : Sample := List.map (clampQ lo hi) a

/-- `(v ** 2).sum([1, 2, 3])` for one sample: its sum of squares. -/
def sumsqS (a : Sample) : ℚ := (List.map (fun x => x * x) a).sum

/-- `(a * b).sum((1, 2, 3))` for two samples: their dot product. -/
def dotS (a b : Sample) : ℚ := (List.zipWith (fun x y => x * y) a b).sum

/-- Divide every entry of a sample by the scalar `c` (broadcasting
`g / norms[:, None, None, None]` to one sample). -/
def divS (a : Sample) (c : ℚ) : Sample := List.map (fun x => x / c) a

/-- Batchwise elementwise sum. -/
def addB (A B : Batch) : Batch := List.zipWith addS A B

/-- Batchwise elementwise difference. -/
def subB (A B : Batch) : Batch := List.zipWith subS A B

/-- Batchwise scalar multiplication. -/
def scaleB (c : ℚ) (A : Batch) : Batch := A.map (scaleS c)

/-- Batchwise `torch.sign`. -/
def signB (A : Batch) : Batch := A.map signS

/-- Batchwise elementwise clamp, `torch.clamp(A, lo, hi)`. -/
def clampB (lo hi : ℚ) (A : Batch) : Batch := List.map (clampS lo hi) A

/-- One draw of `uniform_(-eps, eps)`: the library maps a raw uniform
draw `u ∈ [0,1]` affinely onto the requested interval. -/
def uniformEntry (eps u : ℚ) : ℚ := -eps + (2 * eps) * u

/-- `torch.empty_like(X).uniform_(-eps, eps)`: the raw uniform draws
`U` (entries in `[0,1]`, supplied by the seeded generator) mapped onto
`[-eps, eps]`.  `requires_grad = True` is graph bookkeeping with no
effect on the value. -/
def uniformB (eps : ℚ) (U : Batch) : Batch := U.map (List.map (uniformEntry eps))

/-- `X_new` after `X_new = torch.cat([X.clone(), X.clone()], dim=0)`,
`X_new[:len(X)] += delta1` and `X_new[len(X):] += delta2`, before the
pixel clamp: the two in-place slice additions act on the two halves of
the concatenation of two clones of `X`. -/
def x_new_unclamped (X d1 d2 : Batch) : Batch :=
  addB (List.take X.length (X ++ X)) d1 ++ addB (List.drop X.length (X ++ X)) d2

/-- `X_new = torch.clamp(X_new, 0, 1)` (applied without detaching:
in this value-level embedding the graph bookkeeping is invisible). -/
def x_new (X d1 d2 : Batch) : Batch := clampB 0 1 (x_new_unclamped X d1 d2)

/-- Lines 70-72 of the source:
`X_adv = X_new[:len(X)] + self.alpha*grad1.data.sign()`,
`delta = torch.clamp(X_adv - X, min=-self.eps, max=self.eps).detach()`,
`X_adv = torch.clamp(X + delta, min=0, max=1).detach()`.
`.data` and `.detach()` are identities on the numeric value. -/
def x_adv_batch (eps alpha : ℚ) (X d1 d2 grad1 : Batch) : Batch :=
  let xadv0 := addB (List.take X.length (x_new X d1 d2)) (scaleB alpha (signB grad1))
  let delta := clampB (-eps) eps (subB xadv0 X)
  clampB 0 1 (addB X delta)

/-- `_l2_norm_batch`: `((v ** 2).sum([1, 2, 3])) ** 0.5` per sample,
with `fsqrt` the library's `** 0.5`. -/
def l2_norm_batch (fsqrt : ℚ → ℚ) (v : Batch) : List ℚ := v.map (fun s => fsqrt (sumsqS s))

/-- The sample-pair condition of line 74: the two per-sample L2 norms
(`** 0.5` of the sums of squares) are both nonzero. -/
def nnzPred (fsqrt : ℚ → ℚ) (p : Sample × Sample) : Bool :=
  decide (fsqrt (sumsqS p.1) ≠ 0) && decide (fsqrt (sumsqS p.2) ≠ 0)

/-- `grads_nnz_idx = ((grad1**2).sum([1,2,3])**0.5 != 0) * ((grad2**2).sum([1,2,3])**0.5 != 0)`:
the per-index boolean mask (`*` on boolean tensors is conjunction). -/
def nnzMask (fsqrt : ℚ → ℚ) (g1 g2 : Batch) : List Bool :=
  List.zipWith (fun s t => nnzPred fsqrt (s, t)) g1 g2

/-- Boolean-mask indexing `xs[mask]` along dimension 0. -/
def maskSelect (m : List Bool) (xs : Batch) : Batch :=
  ((List.zip m xs).filter (fun p => p.1)).map (fun p => p.2)

/-- Lines 74-80 of the source: mask both gradients by `grads_nnz_idx`,
L2-normalize each kept sample, and form
`cos = torch.sum(grad1_normalized * grad2_normalized, (1, 2, 3))`. -/
def cosList (fsqrt : ℚ → ℚ) (g1 g2 : Batch) : List ℚ :=
  let m := nnzMask fsqrt g1 g2
  let k1 := maskSelect m g1
  let k2 := maskSelect m g2
  let n1 := l2_norm_batch fsqrt k1
  let n2 := l2_norm_batch fsqrt k2
  let g1n := List.zipWith divS k1 n1
  let g2n := List.zipWith divS k2 n2
  List.zipWith dotS g1n g2n

/-- Lines 82-85: `gradalign_loss = torch.tensor([0])`, replaced by
`1.0 - cos.mean()` when `len(cos) > 0`. -/
def gradAlignLoss (fsqrt : ℚ → ℚ) (g1 g2 : Batch) : ℚ :=
  let cos := cosList fsqrt g1 g2
  if 0 < cos.length then 1 - cos.sum / (cos.length : ℚ) else 0

/-- One term of `nn.CrossEntropyLoss`: `log (sum_j exp logits_j) - logits_y`,
with `fexp`, `flog` the library's `exp` and `log`. -/
def ceSample (fexp flog : ℚ → ℚ) (logits : List ℚ) (y : ℕ) : ℚ :=
  flog ((logits.map fexp).sum) - logits.getD y 0

/-- `nn.CrossEntropyLoss()(pre, ys)` with the default mean reduction. -/
def meanCE (fexp flog : ℚ → ℚ) (pre : List (List ℚ)) (ys : List ℕ) : ℚ :=
  (List.zipWith (ceSample fexp flog) pre ys).sum /
    ((List.zipWith (ceSample fexp flog) pre ys).length : ℚ)

/-- The constructor arguments of `GradAlignAdvTrainer`. -/
structure HParams where
  eps : ℚ
  alpha : ℚ
  grad_align_cos_lambda : ℚ

/-- The value computation of `_do_iter`, lines 48-96.  `model` is the
opaque `self.model` as a map from an input batch to per-sample logits;
`agrad` is the opaque call
`torch.autograd.grad(loss, [delta1, delta2], create_graph=True)`
returning `(grad1, grad2)`, a function of the doubled batch, the
doubled labels, and the two perturbations; `U1`, `U2` are the raw
uniform draws of the seeded generator.  The returned triple is
`(cost.item(), ce_loss.item(), gradalign_loss.item())`. -/
def do_iter (fsqrt fexp flog : ℚ → ℚ) (model : Batch → List (List ℚ))
    (agrad : Batch → List ℕ → Batch → Batch → Batch × Batch)
    (hp : HParams) (X : Batch) (Y : List ℕ) (U1 U2 : Batch) : ℚ × ℚ × ℚ :=
  let delta1 := uniformB hp.eps U1
  let delta2 := uniformB hp.eps U2
  let Xn := x_new X delta1 delta2
  let Yn := Y ++ Y
  let gs := agrad Xn Yn delta1 delta2
  let Xadv := x_adv_batch hp.eps hp.alpha X delta1 delta2 gs.1
  let ga := gradAlignLoss fsqrt gs.1 gs.2
  let ce := meanCE fexp flog (model Xadv) Y
  let cost := ce + hp.grad_align_cos_lambda * ga
  (cost, ce, ga)

/-- Entry `(i, j)` of a batch, `0` outside its extent. -/
def entry (A : Batch) (i j : ℕ) : ℚ := (A.getD i []).getD j 0

/-- The fast-adversarial step as claim C1 words it: the sign step
starts from the original unperturbed batch `X` instead of from
`X_new[:len(X)]`.  Stated from the claim's text, for comparison with
`x_adv_batch`. -/
def x_adv_claimC1 (eps alpha : ℚ) (X grad1 : Batch) : Batch :=
  let xadv0 := addB X (scaleB alpha (signB grad1))
  let delta := clampB (-eps) eps (subB xadv0 X)
  clampB 0 1 (addB X delta)

/-- The gradient-alignment penalty as the specification words it: keep
exactly the indices whose grad1 and grad2 per-sample L2 norms are both
nonzero, take the per-sample cosine (elementwise product of the two
L2-normalized samples, summed), average over the kept subset and
subtract from 1; exactly 0 when the kept subset is empty.  Stated from
the spec's text, for comparison with `gradAlignLoss`. -/
def gradAlignLossSpec (fsqrt : ℚ → ℚ) (g1 g2 : Batch) : ℚ :=
  let kept := (List.zip g1 g2).filter (nnzPred fsqrt)
  let cos := kept.map (fun p =>
    dotS (divS p.1 (fsqrt (sumsqS p.1))) (divS p.2 (fsqrt (sumsqS p.2))))
  if kept.isEmpty then 0 else 1 - cos.sum / (cos.length : ℚ)

/-- The mutable training state owned by the surrounding trainer: the
model parameters, the per-parameter gradient accumulators (`.grad`),
the optimizer's internal moment/state buffers, the optimizer
hyperparameters, and the scheduler state. -/
structure TrainerState where
  params : List ℚ
  gradAccum : List ℚ
  optBuffers : List ℚ
  optHyper : List ℚ
  schedState : List ℚ

/-- `self.optimizer.zero_grad()`: clear the accumulated gradients. -/
def zero_grad (s : TrainerState) : TrainerState :=
  { s with gradAccum := s.gradAccum.map (fun _ => (0 : ℚ)) }

/-- `cost.backward()`: add the parameter gradient of the cost, as
produced by the opaque reverse pass `bw`, into the accumulators. -/
def backward (bw : ℚ → List ℚ) (cost : ℚ) (s : TrainerState) : TrainerState :=
  { s with gradAccum := List.zipWith (fun a b => a + b) s.gradAccum (bw cost) }

/-- `self.optimizer.step()`: one update by the opaque optimizer `opt`,
a function of the hyperparameters, the parameters, the internal
buffers and the accumulated gradients, yielding new parameters and new
internal buffers. -/
def optimizer_step (opt : List ℚ → List ℚ → List ℚ → List ℚ → List ℚ × List ℚ)
    (s : TrainerState) : TrainerState :=
  { s with
    params := (opt s.optHyper s.params s.optBuffers s.gradAccum).1
    optBuffers := (opt s.optHyper s.params s.optBuffers s.gradAccum).2 }

/-- `_do_iter` as a transformer of the trainer state, lines 48-96: the
value computation of `do_iter` (with model and autograd now reading
the current parameters) followed by the single
`zero_grad` / `backward` / `optimizer step` sequence of lines 92-94. -/
def do_iter_step (fsqrt fexp flog : ℚ → ℚ)
    (model : List ℚ → Batch → List (List ℚ))
    (agrad : List ℚ → Batch → List ℕ → Batch → Batch → Batch × Batch)
    (bw : ℚ → List ℚ) (opt : List ℚ → List ℚ → List ℚ → List ℚ → List ℚ × List ℚ)
    (hp : HParams) (X : Batch) (Y : List ℕ) (U1 U2 : Batch)
    (s : TrainerState) : TrainerState × (ℚ × ℚ × ℚ) :=
  let r := do_iter fsqrt fexp flog (model s.params) (agrad s.params) hp X Y U1 U2
  (optimizer_step opt (backward bw r.1 (zero_grad s)), r)

/-!
A deep embedding of the differentiable scalar expressions that the
autodiff engine manipulates, for the `create_graph=True` call of line
67.  The engine's computation graph is an expression; differentiating
with the graph retained produces another expression, which the final
`cost.backward()` can differentiate again (double backpropagation).
-/

/-- Differentiable scalar expressions over ℕ-indexed real variables:
the retained computation graph. -/
inductive Expr : Type
  | const : ℚ → Expr
  | var : ℕ → Expr
  | add : Expr → Expr → Expr
  | mul : Expr → Expr → Expr
  | neg : Expr → Expr
  | div : Expr → Expr → Expr
  | exp : Expr → Expr
  | log : Expr → Expr

/-- Value of an expression at an assignment of the variables. -/
noncomputable def eval (σ : ℕ → ℝ) : Expr → ℝ
  | .const q => (q : ℝ)
  | .var v => σ v
  | .add a b => eval σ a + eval σ b
  | .mul a b => eval σ a * eval σ b
  | .neg a => -eval σ a
  | .div a b => eval σ a / eval σ b
  | .exp a => Real.exp (eval σ a)
  | .log a => Real.log (eval σ a)

/-- Symbolic partial derivative with respect to the variable `x`.  The
result is itself an expression: this is the graph that
`create_graph=True` retains on the computed gradient, making the
gradient differentiable in its turn. -/
def sderiv (x : ℕ) : Expr → Expr
  | .const _ => .const 0
  | .var v => if v = x then .const 1 else .const 0
  | .add a b => .add (sderiv x a) (sderiv x b)
  | .mul a b => .add (.mul (sderiv x a) b) (.mul a (sderiv x b))
  | .neg a => .neg (sderiv x a)
  | .div a b => .div (.add (.mul (sderiv x a) b) (.neg (.mul a (sderiv x b)))) (.mul b b)
  | .exp a => .mul (sderiv x a) (.exp a)
  | .log a => .div (sderiv x a) a

/-- Differentiability conditions at the assignment `σ`: denominators
nonzero and logarithm arguments positive, at every node. -/
def DiffOK (σ : ℕ → ℝ) : Expr → Prop
  | .const _ => True
  | .var _ => True
  | .add a b => DiffOK σ a ∧ DiffOK σ b
  | .mul a b => DiffOK σ a ∧ DiffOK σ b
  | .neg a => DiffOK σ a
  | .div a b => DiffOK σ a ∧ DiffOK σ b ∧ eval σ b ≠ 0
  | .exp a => DiffOK σ a
  | .log a => DiffOK σ a ∧ 0 < eval σ a

/-- Sum of a list of expressions. -/
def sumE : List Expr → Expr
  | [] => .const 0
  | e :: es => .add e (sumE es)

/-- The graph of one `nn.CrossEntropyLoss` term on a row of logit
expressions: `log (sum_j exp logits_j) - logits_y`. -/
def ceExpr (logits : List Expr) (y : ℕ) : Expr :=
  .add (.log (sumE (logits.map .exp))) (.neg (logits.getD y (.const 0)))

/-- The graph of `nn.CrossEntropyLoss()(pre, Y_new)` with the default
mean reduction: the sum of the per-sample terms divided by their
number (2N on the doubled batch of line 64). -/
def lossExpr (pre : List (List Expr)) (ys : List ℕ) : Expr :=
  .div (sumE (List.zipWith ceExpr pre ys))
    (.const ((List.zipWith ceExpr pre ys).length : ℚ))

/-- `torch.autograd.grad(loss, targets, create_graph=True)`: one
retained-graph expression per variable of the differentiation
targets. -/
def autogradGrad (loss : Expr) (xs : List ℕ) : List Expr :=
  xs.map (fun x => sderiv x loss)

end GradAlign

namespace GradAlign

/-! Small facts about list access and lengths used throughout. -/

theorem getD_zipWith {α β γ : Type} (f : α → β → γ) (as : List α) (bs : List β) (i : ℕ)
    (da : α) (db : β) (dc : γ) (ha : i < as.length) (hb : i < bs.length) :
    (List.zipWith f as bs).getD i dc = f (as.getD i da) (bs.getD i db) := by
  rw [List.getD_eq_getElem _ _ (by rw [List.length_zipWith]; omega),
      List.getD_eq_getElem _ _ ha, List.getD_eq_getElem _ _ hb, List.getElem_zipWith]

theorem getD_map {α β : Type} (f : α → β) (l : List α) (i : ℕ) (da : α) (db : β)
    (h : i < l.length) :
    (l.map f).getD i db = f (l.getD i da) := by
  rw [List.getD_eq_getElem _ _ (by simpa using h), List.getD_eq_getElem _ _ h,
      List.getElem_map]

theorem length_addS (a b : Sample) : (addS a b).length = min a.length b.length := by
  simp [addS]

theorem length_subS (a b : Sample) : (subS a b).length = min a.length b.length := by
  simp [subS]

theorem length_scaleS (c : ℚ) (a : Sample) : (scaleS c a).length = a.length := by
  simp [scaleS]

theorem length_signS (a : Sample) : (signS a).length = a.length := by
  simp [signS]

theorem length_clampS (lo hi : ℚ) (a : Sample) : (clampS lo hi a).length = a.length := by
  simp [clampS]

theorem length_addB (A B : Batch) : (addB A B).length = min A.length B.length := by
  simp [addB]

theorem length_subB (A B : Batch) : (subB A B).length = min A.length B.length := by
  simp [subB]

theorem length_scaleB (c : ℚ) (A : Batch) : (scaleB c A).length = A.length := by
  simp [scaleB]

theorem length_signB (A : Batch) : (signB A).length = A.length := by
  simp [signB]

theorem length_clampB (lo hi : ℚ) (A : Batch) : (clampB lo hi A).length = A.length := by
  simp [clampB]

theorem sample_getD_addB (A B : Batch) (i : ℕ) (hiA : i < A.length) (hiB : i < B.length) :
    (addB A B).getD i [] = addS (A.getD i []) (B.getD i []) :=
  getD_zipWith addS A B i [] [] [] hiA hiB

theorem sample_getD_subB (A B : Batch) (i : ℕ) (hiA : i < A.length) (hiB : i < B.length) :
    (subB A B).getD i [] = subS (A.getD i []) (B.getD i []) :=
  getD_zipWith subS A B i [] [] [] hiA hiB

theorem sample_getD_clampB (lo hi : ℚ) (A : Batch) (i : ℕ) (hiA : i < A.length) :
    (clampB lo hi A).getD i [] = clampS lo hi (A.getD i []) :=
  getD_map (clampS lo hi) A i [] [] hiA

theorem sample_getD_scaleB (c : ℚ) (A : Batch) (i : ℕ) (hiA : i < A.length) :
    (scaleB c A).getD i [] = scaleS c (A.getD i []) :=
  getD_map (scaleS c) A i [] [] hiA

theorem sample_getD_signB (A : Batch) (i : ℕ) (hiA : i < A.length) :
    (signB A).getD i [] = signS (A.getD i []) :=
  getD_map signS A i [] [] hiA

/-! Entrywise descriptions of the batch operations. -/

theorem entry_addB (A B : Batch) (i j : ℕ) (hiA : i < A.length) (hiB : i < B.length)
    (hjA : j < (A.getD i []).length) (hjB : j < (B.getD i []).length) :
    entry (addB A B) i j = entry A i j + entry B i j := by
  unfold entry
  rw [sample_getD_addB A B i hiA hiB]
  unfold addS
  rw [getD_zipWith _ _ _ j 0 0 0 hjA hjB]

theorem entry_subB (A B : Batch) (i j : ℕ) (hiA : i < A.length) (hiB : i < B.length)
    (hjA : j < (A.getD i []).length) (hjB : j < (B.getD i []).length) :
    entry (subB A B) i j = entry A i j - entry B i j := by
  unfold entry
  rw [sample_getD_subB A B i hiA hiB]
  unfold subS
  rw [getD_zipWith _ _ _ j 0 0 0 hjA hjB]

theorem entry_clampB (lo hi : ℚ) (A : Batch) (i j : ℕ) (hiA : i < A.length)
    (hjA : j < (A.getD i []).length) :
    entry (clampB lo hi A) i j = clampQ lo hi (entry A i j) := by
  unfold entry
  rw [sample_getD_clampB lo hi A i hiA]
  unfold clampS
  rw [getD_map (clampQ lo hi) _ j 0 0 hjA]

theorem entry_scaleB (c : ℚ) (A : Batch) (i j : ℕ) (hiA : i < A.length)
    (hjA : j < (A.getD i []).length) :
    entry (scaleB c A) i j = c * entry A i j := by
  unfold entry
  rw [sample_getD_scaleB c A i hiA]
  unfold scaleS
  rw [getD_map _ _ j 0 0 hjA]

theorem entry_signB (A : Batch) (i j : ℕ) (hiA : i < A.length)
    (hjA : j < (A.getD i []).length) :
    entry (signB A) i j = signQ (entry A i j) := by
  unfold entry
  rw [sample_getD_signB A i hiA]
  unfold signS
  rw [getD_map signQ _ j 0 0 hjA]

/-! Facts about the clamp function. -/

theorem clampQ_mem (lo hi x : ℚ) (h : lo ≤ hi) :
    lo ≤ clampQ lo hi x ∧ clampQ lo hi x ≤ hi := by
  unfold clampQ; split_ifs <;> constructor <;> linarith

theorem adv_scalar_bounds (eps x t : ℚ) (heps : 0 ≤ eps) (hx0 : 0 ≤ x) (hx1 : x ≤ 1) :
    max 0 (x - eps) ≤ clampQ 0 1 (x + clampQ (-eps) eps t) ∧
      clampQ 0 1 (x + clampQ (-eps) eps t) ≤ min 1 (x + eps) := by
  obtain ⟨hd1, hd2⟩ := clampQ_mem (-eps) eps t (by linarith)
  constructor
  · rw [max_le_iff]
    unfold clampQ
    split_ifs <;> constructor <;> linarith
  · rw [le_min_iff]
    unfold clampQ
    split_ifs <;> constructor <;> linarith

/-- The first half of the clamped doubled batch is the clamp of
`X + delta1`; it does not depend on `delta2`. -/
theorem take_x_new (X d1 d2 : Batch) (h1 : d1.length = X.length) :
    List.take X.length (x_new X d1 d2) = clampB 0 1 (addB X d1) := by
  unfold x_new x_new_unclamped clampB
  rw [List.take_left, List.drop_left, List.map_append,
      List.take_left' (by simp [addB, h1])]

/-- Entrywise closed form of the fast adversarial example of lines
70-72: each entry is the pixel clamp of `X` plus the eps-ball clamp of
the offset of `clamp(X + delta1, 0, 1) + alpha * sign grad1` from `X`.
The sign step starts from the clamped randomly perturbed first half of
the doubled batch, not from `X` itself. -/
theorem x_adv_batch_entry (eps alpha : ℚ) (X d1 d2 g1 : Batch)
    (h1 : d1.length = X.length) (hg : g1.length = X.length)
    (i j : ℕ) (hi : i < X.length)
    (hs1 : (d1.getD i []).length = (X.getD i []).length)
    (hsg : (g1.getD i []).length = (X.getD i []).length)
    (hj : j < (X.getD i []).length) :
    entry (x_adv_batch eps alpha X d1 d2 g1) i j =
      clampQ 0 1 (entry X i j +
        clampQ (-eps) eps
          (clampQ 0 1 (entry X i j + entry d1 i j) + alpha * signQ (entry g1 i j) -
            entry X i j)) := by
  have hid1 : i < d1.length := by omega
  have hig : i < g1.length := by omega
  have hjd1 : j < (d1.getD i []).length := by omega
  have hjg : j < (g1.getD i []).length := by omega
  have bad1 : i < (addB X d1).length := by
    simp only [length_addB]; omega
  have lE : (clampB 0 1 (addB X d1)).length = X.length := by
    simp only [length_clampB, length_addB]; omega
  have bE : i < (clampB 0 1 (addB X d1)).length := by omega
  have sE : ((clampB 0 1 (addB X d1)).getD i []).length = (X.getD i []).length := by
    rw [sample_getD_clampB 0 1 (addB X d1) i bad1, sample_getD_addB X d1 i hi hid1,
        length_clampS, length_addS]
    omega
  have bEj : j < ((clampB 0 1 (addB X d1)).getD i []).length := by omega
  have bsgB : i < (signB g1).length := by
    simp only [length_signB]; omega
  have lS : (scaleB alpha (signB g1)).length = X.length := by
    simp only [length_scaleB, length_signB]; omega
  have bS : i < (scaleB alpha (signB g1)).length := by omega
  have sS : ((scaleB alpha (signB g1)).getD i []).length = (X.getD i []).length := by
    rw [sample_getD_scaleB alpha (signB g1) i bsgB, sample_getD_signB g1 i hig,
        length_scaleS, length_signS]
    omega
  have bSj : j < ((scaleB alpha (signB g1)).getD i []).length := by omega
  have lx0 : (addB (clampB 0 1 (addB X d1)) (scaleB alpha (signB g1))).length
      = X.length := by
    simp only [length_addB]; omega
  have bX0 : i < (addB (clampB 0 1 (addB X d1)) (scaleB alpha (signB g1))).length := by
    omega
  have sx0 : ((addB (clampB 0 1 (addB X d1)) (scaleB alpha (signB g1))).getD i []).length
      = (X.getD i []).length := by
    rw [sample_getD_addB _ _ i bE bS, length_addS]
    omega
  have bX0j :
      j < ((addB (clampB 0 1 (addB X d1)) (scaleB alpha (signB g1))).getD i []).length := by
    omega
  have lsub : (subB (addB (clampB 0 1 (addB X d1)) (scaleB alpha (signB g1))) X).length
      = X.length := by
    simp only [length_subB]; omega
  have bsub : i < (subB (addB (clampB 0 1 (addB X d1)) (scaleB alpha (signB g1))) X).length := by
    omega
  have ssub : ((subB (addB (clampB 0 1 (addB X d1)) (scaleB alpha (signB g1))) X).getD i
      []).length = (X.getD i []).length := by
    rw [sample_getD_subB _ _ i bX0 hi, length_subS]
    omega
  have bsubj :
      j < ((subB (addB (clampB 0 1 (addB X d1)) (scaleB alpha (signB g1))) X).getD i []).length := by
    omega
  have lD : (clampB (-eps) eps
      (subB (addB (clampB 0 1 (addB X d1)) (scaleB alpha (signB g1))) X)).length
      = X.length := by
    simp only [length_clampB]; omega
  have bD : i < (clampB (-eps) eps
      (subB (addB (clampB 0 1 (addB X d1)) (scaleB alpha (signB g1))) X)).length := by
    omega
  have sD : ((clampB (-eps) eps
      (subB (addB (clampB 0 1 (addB X d1)) (scaleB alpha (signB g1))) X)).getD i []).length
      = (X.getD i []).length := by
    rw [sample_getD_clampB _ _ _ i bsub, length_clampS]
    omega
  have bDj : j < ((clampB (-eps) eps
      (subB (addB (clampB 0 1 (addB X d1)) (scaleB alpha (signB g1))) X)).getD i []).length := by
    omega
  have bXD : i < (addB X (clampB (-eps) eps
      (subB (addB (clampB 0 1 (addB X d1)) (scaleB alpha (signB g1))) X))).length := by
    simp only [length_addB]; omega
  have bXDj : j < ((addB X (clampB (-eps) eps
      (subB (addB (clampB 0 1 (addB X d1)) (scaleB alpha (signB g1))) X))).getD i []).length := by
    rw [sample_getD_addB X _ i hi bD, length_addS]
    omega
  simp only [x_adv_batch]
  rw [take_x_new X d1 d2 h1]
  rw [entry_clampB 0 1 _ i j bXD bXDj]
  rw [entry_addB X _ i j hi bD hj bDj]
  rw [entry_clampB (-eps) eps _ i j bsub bsubj]
  rw [entry_subB _ X i j bX0 hi bX0j hj]
  rw [entry_addB _ _ i j bE bS bEj bSj]
  rw [entry_clampB 0 1 (addB X d1) i j bad1
    (by rw [sample_getD_addB X d1 i hi hid1, length_addS]; omega)]
  rw [entry_addB X d1 i j hi hid1 hj hjd1]
  rw [entry_scaleB alpha (signB g1) i j bsgB
    (by rw [sample_getD_signB g1 i hig, length_signS]; omega)]
  rw [entry_signB g1 i j hig hjg]

end GradAlign

namespace GradAlign

/-- C1 (counterexample): with `eps = 1/10`, `alpha = 1/100`, batch
`X = [[1/2]]` (entries in `[0,1]`), perturbation `delta1 = [[1/10]]`
(inside `[-eps, eps]`) and gradient `grad1 = [[1]]`, the code's
adversarial example is `[[3/5]]` while the claim's formula, whose sign
step starts from the original `X`, yields `[[51/100]]`. -/
theorem c1_counterexample :
    (0 : ℚ) < 1/10 ∧ (0 : ℚ) < 1/100 ∧
    x_adv_batch (1/10) (1/100) [[1/2]] [[1/10]] [[0]] [[1]] = [[3/5]] ∧
    x_adv_claimC1 (1/10) (1/100) [[1/2]] [[1]] = [[51/100]] ∧
    x_adv_batch (1/10) (1/100) [[1/2]] [[1/10]] [[0]] [[1]] ≠
      x_adv_claimC1 (1/10) (1/100) [[1/2]] [[1]] := by
  have hc : x_adv_batch (1/10) (1/100) [[1/2]] [[1/10]] [[0]] [[1]] = [[3/5]] := by
    simp only [x_adv_batch, x_new, x_new_unclamped, clampB, clampS, clampQ, addB, addS,
      subB, subS, scaleB, scaleS, signB, signS, signQ, List.zipWith, List.map, List.take,
      List.drop, List.length, List.cons_append, List.nil_append]
    norm_num
  have hs : x_adv_claimC1 (1/10) (1/100) [[1/2]] [[1]] = [[51/100]] := by
    simp only [x_adv_claimC1, clampB, clampS, clampQ, addB, addS, subB, subS, scaleB,
      scaleS, signB, signS, signQ, List.zipWith, List.map]
    norm_num
  refine ⟨by norm_num, by norm_num, hc, hs, ?_⟩
  rw [hc, hs]
  intro h
  simp only [List.cons.injEq] at h
  norm_num at h

/-- C1 (amended): the sign step of the fast adversarial example is
taken from the first half `clamp(X + delta1, 0, 1)` of the clamped
perturbed doubled batch, not from the original `X`: entrywise,
`X_adv = clamp(X + clamp(clamp(X + delta1, 0, 1) + alpha * sign grad1 - X,
-eps, eps), 0, 1)` — the offset from `X` clamped into `[-eps, eps]`
first, the result clamped into `[0, 1]` second (the final detach is
graph bookkeeping with no effect on the value). -/
theorem c1_sign_step_from_perturbed_half (eps alpha : ℚ) (X d1 d2 g1 : Batch)
    (h1 : d1.length = X.length) (hg : g1.length = X.length)
    (i j : ℕ) (hi : i < X.length)
    (hs1 : (d1.getD i []).length = (X.getD i []).length)
    (hsg : (g1.getD i []).length = (X.getD i []).length)
    (hj : j < (X.getD i []).length) :
    entry (x_adv_batch eps alpha X d1 d2 g1) i j =
      clampQ 0 1 (entry X i j +
        clampQ (-eps) eps
          (clampQ 0 1 (entry X i j + entry d1 i j) + alpha * signQ (entry g1 i j) -
            entry X i j)) :=
  x_adv_batch_entry eps alpha X d1 d2 g1 h1 hg i j hi hs1 hsg hj

theorem c1_witness :
    entry (x_adv_batch (1/10) (1/100) [[1/2]] [[1/10]] [[0]] [[1]]) 0 0 = 3/5 := by
  have h := c1_sign_step_from_perturbed_half (1/10) (1/100) [[1/2]] [[1/10]] [[0]] [[1]]
    (by simp) (by simp) 0 0 (by simp) (by simp) (by simp) (by simp)
  rw [h]
  norm_num [entry, clampQ, signQ]

/-- C4: every entry of the returned adversarial example lies between
`max 0 (X - eps)` and `min 1 (X + eps)` — the eps-ball around `X`
intersected with the pixel range — for arbitrary `alpha`, any `grad1`
and any perturbations, because the offset is clamped into the eps ball
first and the result clamped into the pixel range second. -/
theorem c4_xadv_in_ball (eps alpha : ℚ) (X d1 d2 g1 : Batch) (heps : 0 < eps)
    (hX : ∀ i j, 0 ≤ entry X i j ∧ entry X i j ≤ 1)
    (h1 : d1.length = X.length) (hg : g1.length = X.length)
    (i j : ℕ) (hi : i < X.length)
    (hs1 : (d1.getD i []).length = (X.getD i []).length)
    (hsg : (g1.getD i []).length = (X.getD i []).length)
    (hj : j < (X.getD i []).length) :
    max 0 (entry X i j - eps) ≤ entry (x_adv_batch eps alpha X d1 d2 g1) i j ∧
      entry (x_adv_batch eps alpha X d1 d2 g1) i j ≤ min 1 (entry X i j + eps) := by
  rw [x_adv_batch_entry eps alpha X d1 d2 g1 h1 hg i j hi hs1 hsg hj]
  exact adv_scalar_bounds eps (entry X i j) _ (le_of_lt heps) (hX i j).1 (hX i j).2

theorem c4_witness :
    max 0 ((1:ℚ)/2 - 1/10) ≤ entry (x_adv_batch (1/10) 5 [[1/2]] [[1/10]] [[0]] [[1]]) 0 0 ∧
      entry (x_adv_batch (1/10) 5 [[1/2]] [[1/10]] [[0]] [[1]]) 0 0 ≤ min 1 ((1:ℚ)/2 + 1/10) := by
  have h := c4_xadv_in_ball (1/10) 5 [[1/2]] [[1/10]] [[0]] [[1]] (by norm_num)
    (by
      intro i j
      rcases i with _ | i <;> rcases j with _ | j <;> norm_num [entry])
    (by simp) (by simp) 0 0 (by simp) (by simp) (by simp) (by simp)
  simpa [entry] using h

/-- C8: every entry of the sampled perturbations lies in `[-eps, eps]`
by construction of the uniform draw; before the pixel clamp the first
half of `X_new` is exactly `X + delta1` and the second half exactly
`X + delta2`; and `X_new` is that tensor clamped into `[0,1]` (the
clamp carries gradient tracking, which is invisible at value level). -/
theorem c8_perturbation_construction (eps : ℚ) (heps : 0 < eps) (U : Batch)
    (hU : ∀ i j, 0 ≤ entry U i j ∧ entry U i j ≤ 1)
    (X d1 d2 : Batch) (h1 : d1.length = X.length) :
    (∀ i j, -eps ≤ entry (uniformB eps U) i j ∧ entry (uniformB eps U) i j ≤ eps) ∧
      List.take X.length (x_new_unclamped X d1 d2) = addB X d1 ∧
      List.drop X.length (x_new_unclamped X d1 d2) = addB X d2 ∧
      x_new X d1 d2 = clampB 0 1 (x_new_unclamped X d1 d2) := by
  refine ⟨?_, ?_, ?_, rfl⟩
  · intro i j
    by_cases hi : i < U.length
    · by_cases hj : j < (U.getD i []).length
      · unfold entry uniformB
        rw [getD_map (List.map (uniformEntry eps)) U i [] [] hi,
            getD_map (uniformEntry eps) _ j 0 0 hj]
        obtain ⟨hu0, hu1⟩ := hU i j
        unfold entry at hu0 hu1
        unfold uniformEntry
        constructor
        · nlinarith
        · nlinarith
      · unfold entry uniformB
        rw [getD_map (List.map (uniformEntry eps)) U i [] [] hi,
            List.getD_eq_default _ _ (by simpa using le_of_not_lt hj)]
        constructor <;> linarith
    · unfold entry uniformB
      rw [List.getD_eq_default (U.map (List.map (uniformEntry eps))) []
        (by simpa using le_of_not_lt hi)]
      simp only [List.getD_nil]
      constructor <;> linarith
  · unfold x_new_unclamped
    rw [List.take_left, List.drop_left, List.take_left' (by simp [addB, h1])]
  · unfold x_new_unclamped
    rw [List.take_left, List.drop_left, List.drop_left' (by simp [addB, h1])]

theorem c8_witness :
    List.take (List.length [[(1:ℚ)/2]]) (x_new_unclamped [[(1:ℚ)/2]] [[1/10]] [[0]])
      = addB [[(1:ℚ)/2]] [[1/10]] :=
  (c8_perturbation_construction (1/10) (by norm_num) [[1]]
    (by
      intro i j
      rcases i with _ | i <;> rcases j with _ | j <;> norm_num [entry])
    [[(1:ℚ)/2]] [[1/10]] [[0]] (by simp)).2.1

end GradAlign

namespace GradAlign

theorem sumsqS_nonneg (a : Sample) : 0 ≤ sumsqS a := by
  unfold sumsqS
  apply List.sum_nonneg
  intro x hx
  simp only [List.mem_map] at hx
  obtain ⟨y, _, rfl⟩ := hx
  exact mul_self_nonneg y

/-- One step of the masked cosine computation: a pair passing the
nonzero-norm filter contributes its normalized dot product, a pair
failing it contributes nothing. -/
theorem cosList_cons (fsqrt : ℚ → ℚ) (a b : Sample) (g1 g2 : Batch) :
    cosList fsqrt (a :: g1) (b :: g2) =
      if nnzPred fsqrt (a, b) then
        dotS (divS a (fsqrt (sumsqS a))) (divS b (fsqrt (sumsqS b))) :: cosList fsqrt g1 g2
      else cosList fsqrt g1 g2 := by
  by_cases h : nnzPred fsqrt (a, b) = true <;>
    simp [cosList, nnzMask, maskSelect, l2_norm_batch, h, List.filter_cons]

/-- The cosine list of lines 74-80 ranges exactly over the pairs kept
by the nonzero-norm filter: masking the two gradient tensors with the
shared mask and recombining equals filtering the zipped pairs. -/
theorem cosList_eq_keptMap (fsqrt : ℚ → ℚ) (g1 g2 : Batch) :
    cosList fsqrt g1 g2 = ((List.zip g1 g2).filter (nnzPred fsqrt)).map
      (fun p => dotS (divS p.1 (fsqrt (sumsqS p.1))) (divS p.2 (fsqrt (sumsqS p.2)))) := by
  induction g1 generalizing g2 with
  | nil => simp [cosList, nnzMask, maskSelect]
  | cons a g1 ih =>
    cases g2 with
    | nil => simp [cosList, nnzMask, maskSelect]
    | cons b g2 =>
      rw [cosList_cons]
      by_cases h : nnzPred fsqrt (a, b) = true <;>
        simp [h, ih, List.filter_cons]

/-- C2: the gradient-alignment loss of lines 74-85 equals the spec's
description (filter the sample pairs by both L2 norms nonzero,
average the normalized dot products over the kept subset, subtract
from 1, with 0 for an empty subset); and when every sample has a
zero-norm grad1 or grad2 the filtered subset is empty and the loss is
exactly 0, with no division by the zero count. -/
theorem c2_gradalign_refines_spec (fsqrt : ℚ → ℚ) (g1 g2 : Batch) :
    gradAlignLoss fsqrt g1 g2 = gradAlignLossSpec fsqrt g1 g2 ∧
      ((∀ p ∈ List.zip g1 g2, fsqrt (sumsqS p.1) = 0 ∨ fsqrt (sumsqS p.2) = 0) →
        gradAlignLoss fsqrt g1 g2 = 0) := by
  have hc := cosList_eq_keptMap fsqrt g1 g2
  constructor
  · unfold gradAlignLoss gradAlignLossSpec
    rw [hc]
    rcases hk : (List.zip g1 g2).filter (nnzPred fsqrt) with _ | ⟨p, ks⟩ <;> simp
  · intro hall
    unfold gradAlignLoss
    rw [hc]
    have hnil : (List.zip g1 g2).filter (nnzPred fsqrt) = [] := by
      rw [List.filter_eq_nil_iff]
      intro p hp
      rcases hall p hp with h | h <;> simp [nnzPred, h]
    simp [hnil]

theorem c2_witness : gradAlignLoss (fun q => q) [[0, 0]] [[1, 0]] = 0 :=
  (c2_gradalign_refines_spec (fun q => q) [[0, 0]] [[1, 0]]).2 (by
    intro p hp
    simp only [List.zip, List.zipWith, List.mem_singleton] at hp
    subst hp
    left
    simp [sumsqS])

/-- C7: every sample pair reaching the per-sample normalization has
passed the nonzero-norm filter, so both divisor norms are strictly
positive (the library square root being nonnegative on the nonnegative
sums of squares) and no division by zero occurs; pairs failing the
filter are excluded entirely — the cosine list ranges exactly over the
kept pairs, with no zero padding. -/
theorem c7_normalization_safe (fsqrt : ℚ → ℚ)
    (hpos : ∀ q, 0 ≤ q → 0 ≤ fsqrt q) (g1 g2 : Batch) :
    (∀ p ∈ (List.zip g1 g2).filter (nnzPred fsqrt),
        0 < fsqrt (sumsqS p.1) ∧ 0 < fsqrt (sumsqS p.2)) ∧
      (cosList fsqrt g1 g2).length
        = ((List.zip g1 g2).filter (nnzPred fsqrt)).length := by
  constructor
  · intro p hp
    have hkeep : nnzPred fsqrt p = true := List.of_mem_filter hp
    simp only [nnzPred, Bool.and_eq_true, decide_eq_true_eq] at hkeep
    constructor
    · exact lt_of_le_of_ne (hpos _ (sumsqS_nonneg _)) (Ne.symm hkeep.1)
    · exact lt_of_le_of_ne (hpos _ (sumsqS_nonneg _)) (Ne.symm hkeep.2)
  · rw [cosList_eq_keptMap]
    simp

theorem c7_witness :
    (cosList (fun q => q) [[1]] [[1]]).length
      = ((List.zip [[(1:ℚ)]] [[(1:ℚ)]]).filter (nnzPred (fun q => q))).length :=
  (c7_normalization_safe (fun q => q) (fun _ h => h) [[1]] [[1]]).2

end GradAlign

namespace GradAlign

/-- C5: the per-step output is the fixed-order triple (total cost,
classification loss, gradient-alignment loss): the middle component is
the mean cross-entropy of a fresh forward pass of the model on `X_adv`
against the original non-duplicated labels `Y`, the last component is
the alignment loss of `grad1` and `grad2`, and the first equals
`ce_loss + grad_align_cos_lambda * gradalign_loss`; this holds for
every batch, in particular when the filtered subset of the alignment
term is empty. -/
theorem c5_output_triple (fsqrt fexp flog : ℚ → ℚ) (model : Batch → List (List ℚ))
    (agrad : Batch → List ℕ → Batch → Batch → Batch × Batch)
    (hp : HParams) (X : Batch) (Y : List ℕ) (U1 U2 : Batch) :
    (do_iter fsqrt fexp flog model agrad hp X Y U1 U2).2.1 =
        meanCE fexp flog (model (x_adv_batch hp.eps hp.alpha X (uniformB hp.eps U1)
          (uniformB hp.eps U2)
          (agrad (x_new X (uniformB hp.eps U1) (uniformB hp.eps U2)) (Y ++ Y)
            (uniformB hp.eps U1) (uniformB hp.eps U2)).1)) Y ∧
      (do_iter fsqrt fexp flog model agrad hp X Y U1 U2).2.2 =
        gradAlignLoss fsqrt
          (agrad (x_new X (uniformB hp.eps U1) (uniformB hp.eps U2)) (Y ++ Y)
            (uniformB hp.eps U1) (uniformB hp.eps U2)).1
          (agrad (x_new X (uniformB hp.eps U1) (uniformB hp.eps U2)) (Y ++ Y)
            (uniformB hp.eps U1) (uniformB hp.eps U2)).2 ∧
      (do_iter fsqrt fexp flog model agrad hp X Y U1 U2).1 =
        (do_iter fsqrt fexp flog model agrad hp X Y U1 U2).2.1 +
          hp.grad_align_cos_lambda *
            (do_iter fsqrt fexp flog model agrad hp X Y U1 U2).2.2 :=
  ⟨rfl, rfl, rfl⟩

/-- C6: whenever `grad_align_cos_lambda` is zero the returned cost
equals the returned classification loss exactly, for every batch and
whatever value the alignment term takes: the regularizer is fully
ablated from the objective. -/
theorem c6_lambda_zero_ablated (fsqrt fexp flog : ℚ → ℚ) (model : Batch → List (List ℚ))
    (agrad : Batch → List ℕ → Batch → Batch → Batch × Batch)
    (eps alpha : ℚ) (X : Batch) (Y : List ℕ) (U1 U2 : Batch) :
    (do_iter fsqrt fexp flog model agrad ⟨eps, alpha, 0⟩ X Y U1 U2).1 =
      (do_iter fsqrt fexp flog model agrad ⟨eps, alpha, 0⟩ X Y U1 U2).2.1 := by
  simp [do_iter]

/-- C9: one step leaves the scheduler state and the optimizer
hyperparameters unchanged; the parameters and the optimizer buffers of
the post-state are exactly the result of one application of the
`zero_grad` / `backward` / `optimizer step` sequence to the pre-state;
and the returned triple is the pure value computation of the step.
The caller's `Images` and `Labels` are immutable values of this
embedding (the source mutates only `X_new`, a fresh concatenation of
clones). -/
theorem c9_frame (fsqrt fexp flog : ℚ → ℚ) (model : List ℚ → Batch → List (List ℚ))
    (agrad : List ℚ → Batch → List ℕ → Batch → Batch → Batch × Batch)
    (bw : ℚ → List ℚ) (opt : List ℚ → List ℚ → List ℚ → List ℚ → List ℚ × List ℚ)
    (hp : HParams) (X : Batch) (Y : List ℕ) (U1 U2 : Batch) (s : TrainerState) :
    (do_iter_step fsqrt fexp flog model agrad bw opt hp X Y U1 U2 s).1.schedState
        = s.schedState ∧
      (do_iter_step fsqrt fexp flog model agrad bw opt hp X Y U1 U2 s).1.optHyper
        = s.optHyper ∧
      (do_iter_step fsqrt fexp flog model agrad bw opt hp X Y U1 U2 s).1 =
        optimizer_step opt (backward bw
          (do_iter fsqrt fexp flog (model s.params) (agrad s.params) hp X Y U1 U2).1
          (zero_grad s)) ∧
      (do_iter_step fsqrt fexp flog model agrad bw opt hp X Y U1 U2 s).2 =
        do_iter fsqrt fexp flog (model s.params) (agrad s.params) hp X Y U1 U2 :=
  ⟨rfl, rfl, rfl, rfl⟩

/-- C10: determinism given the random source: two invocations with the
same seed-determined raw uniform draws, the same trainer state and the
same batch produce identical perturbations `delta1`, `delta2`,
identical gradient pairs `(grad1, grad2)`, and identical post-states
and returned scalar triples. -/
theorem c10_deterministic (fsqrt fexp flog : ℚ → ℚ)
    (model : List ℚ → Batch → List (List ℚ))
    (agrad : List ℚ → Batch → List ℕ → Batch → Batch → Batch × Batch)
    (bw : ℚ → List ℚ) (opt : List ℚ → List ℚ → List ℚ → List ℚ → List ℚ × List ℚ)
    (hp : HParams) (X X2 : Batch) (Y Y2 : List ℕ) (U1 U2 V1 V2 : Batch)
    (s s2 : TrainerState)
    (hX : X = X2) (hY : Y = Y2) (h1 : U1 = V1) (h2 : U2 = V2) (hs : s = s2) :
    uniformB hp.eps U1 = uniformB hp.eps V1 ∧
      uniformB hp.eps U2 = uniformB hp.eps V2 ∧
      agrad s.params (x_new X (uniformB hp.eps U1) (uniformB hp.eps U2)) (Y ++ Y)
          (uniformB hp.eps U1) (uniformB hp.eps U2)
        = agrad s2.params (x_new X2 (uniformB hp.eps V1) (uniformB hp.eps V2)) (Y2 ++ Y2)
          (uniformB hp.eps V1) (uniformB hp.eps V2) ∧
      do_iter_step fsqrt fexp flog model agrad bw opt hp X Y U1 U2 s
        = do_iter_step fsqrt fexp flog model agrad bw opt hp X2 Y2 V1 V2 s2 := by
  subst hX hY h1 h2 hs
  exact ⟨rfl, rfl, rfl, rfl⟩

theorem c10_witness :
    do_iter_step (fun q => q) (fun q => q) (fun q => q) (fun _ _ => [])
        (fun _ _ _ _ _ => ([], [])) (fun _ => []) (fun _ p b _ => (p, b))
        ⟨1, 1, 1⟩ [[1]] [0] [[1]] [[0]] ⟨[], [], [], [], []⟩
      = do_iter_step (fun q => q) (fun q => q) (fun q => q) (fun _ _ => [])
        (fun _ _ _ _ _ => ([], [])) (fun _ => []) (fun _ p b _ => (p, b))
        ⟨1, 1, 1⟩ [[1]] [0] [[1]] [[0]] ⟨[], [], [], [], []⟩ :=
  (c10_deterministic (fun q => q) (fun q => q) (fun q => q) (fun _ _ => [])
    (fun _ _ _ _ _ => ([], [])) (fun _ => []) (fun _ p b _ => (p, b))
    ⟨1, 1, 1⟩ [[1]] [[1]] [0] [0] [[1]] [[0]] [[1]] [[0]] ⟨[], [], [], [], []⟩
    ⟨[], [], [], [], []⟩ rfl rfl rfl rfl rfl).2.2.2

end GradAlign

namespace GradAlign

theorem eval_update_self (σ : ℕ → ℝ) (x : ℕ) (e : Expr) :
    eval (Function.update σ x (σ x)) e = eval σ e := by
  rw [Function.update_eq_self]

/-- Correctness of create-graph differentiation: at every assignment
where the graph is differentiable, the symbolic derivative evaluates
to the true derivative of the evaluation function in the direction of
the differentiated variable. -/
theorem sderiv_correct (σ : ℕ → ℝ) (x : ℕ) (e : Expr) (h : DiffOK σ e) :
    HasDerivAt (fun t => eval (Function.update σ x t) e)
      (eval σ (sderiv x e)) (σ x) := by
  induction e with
  | const q =>
    simpa [eval, sderiv] using hasDerivAt_const (σ x) ((q : ℝ))
  | var v =>
    by_cases hv : v = x
    · subst hv
      simpa [eval, sderiv, Function.update_same] using hasDerivAt_id (σ v)
    · simpa [eval, sderiv, hv, Function.update_noteq hv] using
        hasDerivAt_const (σ x) (σ v)
  | add a b iha ihb =>
    simpa [eval, sderiv] using (iha h.1).add (ihb h.2)
  | mul a b iha ihb =>
    simpa [eval, sderiv, Function.update_eq_self] using (iha h.1).mul (ihb h.2)
  | neg a iha =>
    simpa [eval, sderiv] using (iha h).neg
  | div a b iha ihb =>
    obtain ⟨ha, hb, hne⟩ := h
    have hne2 : eval (Function.update σ x (σ x)) b ≠ 0 := by
      rwa [Function.update_eq_self]
    have hd := (iha ha).div (ihb hb) hne2
    simp only [eval, sderiv, Function.update_eq_self] at hd ⊢
    convert hd using 1
    ring
  | exp a iha =>
    have hg : HasDerivAt Real.exp (Real.exp (eval (Function.update σ x (σ x)) a))
        (eval (Function.update σ x (σ x)) a) := Real.hasDerivAt_exp _
    have hd := hg.comp (σ x) (iha h)
    simp only [Function.comp] at hd
    simp only [eval, sderiv, Function.update_eq_self] at hd ⊢
    convert hd using 1
    ring
  | log a iha =>
    obtain ⟨ha, hpos⟩ := h
    have hne2 : eval (Function.update σ x (σ x)) a ≠ 0 := by
      rw [Function.update_eq_self]; exact ne_of_gt hpos
    have hg : HasDerivAt Real.log (eval (Function.update σ x (σ x)) a)⁻¹
        (eval (Function.update σ x (σ x)) a) := Real.hasDerivAt_log hne2
    have hd := hg.comp (σ x) (iha ha)
    simp only [Function.comp] at hd
    simp only [eval, sderiv, Function.update_eq_self] at hd ⊢
    rw [div_eq_mul_inv, mul_comm]
    exact hd

end GradAlign

namespace GradAlign

theorem exists_of_mem_zipWith {α β γ : Type} {f : α → β → γ} {c : γ} :
    ∀ {as : List α} {bs : List β}, c ∈ List.zipWith f as bs →
      ∃ a ∈ as, ∃ b ∈ bs, c = f a b := by
  intro as
  induction as with
  | nil => intro bs h; simp at h
  | cons a as ih =>
    intro bs h
    cases bs with
    | nil => simp at h
    | cons b bs =>
      rcases List.mem_cons.mp h with rfl | h2
      · exact ⟨a, by simp, b, by simp, rfl⟩
      · obtain ⟨a2, ha, b2, hb, rfl⟩ := ih h2
        exact ⟨a2, by simp [ha], b2, by simp [hb], rfl⟩

theorem diffOK_sumE (σ : ℕ → ℝ) (es : List Expr) (h : ∀ e ∈ es, DiffOK σ e) :
    DiffOK σ (sumE es) := by
  induction es with
  | nil => trivial
  | cons e es ih => exact ⟨h e (by simp), ih (fun a ha => h a (by simp [ha]))⟩

theorem eval_sumE_map_exp_nonneg (σ : ℕ → ℝ) (es : List Expr) :
    0 ≤ eval σ (sumE (es.map .exp)) := by
  induction es with
  | nil => simp [sumE, eval]
  | cons e es ih =>
    simp only [List.map, sumE, eval]
    have := Real.exp_pos (eval σ e)
    linarith

theorem eval_sumE_map_exp_pos (σ : ℕ → ℝ) (es : List Expr) (h : es ≠ []) :
    0 < eval σ (sumE (es.map .exp)) := by
  cases es with
  | nil => simp at h
  | cons e es =>
    simp only [List.map, sumE, eval]
    have h1 := Real.exp_pos (eval σ e)
    have h2 := eval_sumE_map_exp_nonneg σ es
    linarith

theorem diffOK_ceExpr (σ : ℕ → ℝ) (logits : List Expr) (y : ℕ) (hne : logits ≠ [])
    (h : ∀ e ∈ logits, DiffOK σ e) : DiffOK σ (ceExpr logits y) := by
  refine ⟨⟨?_, ?_⟩, ?_⟩
  · refine diffOK_sumE σ _ ?_
    intro t ht
    simp only [List.mem_map] at ht
    obtain ⟨e, he, rfl⟩ := ht
    exact h e he
  · exact eval_sumE_map_exp_pos σ logits hne
  · by_cases hy : y < logits.length
    · have hmem : DiffOK σ (logits.getD y (.const 0)) := by
        rw [List.getD_eq_getElem _ _ hy]
        exact h _ (List.getElem_mem hy)
      exact hmem
    · have hdef : DiffOK σ (logits.getD y (.const 0)) := by
        rw [List.getD_eq_default _ _ (le_of_not_lt hy)]
        trivial
      exact hdef

theorem diffOK_lossExpr (σ : ℕ → ℝ) (pre : List (List Expr)) (ys : List ℕ)
    (hrows : ∀ row ∈ pre, row ≠ [] ∧ ∀ e ∈ row, DiffOK σ e)
    (hn : List.zipWith ceExpr pre ys ≠ []) : DiffOK σ (lossExpr pre ys) := by
  have hlen : (List.zipWith ceExpr pre ys).length ≠ 0 := by
    simpa using hn
  refine ⟨?_, trivial, ?_⟩
  · refine diffOK_sumE σ _ ?_
    intro t ht
    obtain ⟨row, hrow, y, _, rfl⟩ := exists_of_mem_zipWith ht
    exact diffOK_ceExpr σ row y (hrows row hrow).1 (hrows row hrow).2
  · simp only [eval]
    exact_mod_cast hlen

/-- C3: `grad1` and `grad2` are the create-graph gradients of the
scalar mean-reduced cross-entropy of the model's logits on the doubled
batch against `Y_new`: each component that
`torch.autograd.grad(loss, targets, create_graph=True)` returns for a
delta variable is the retained-graph symbolic derivative of `lossExpr`
and evaluates to the true derivative of the loss with respect to that
variable; and the component, being itself an expression graph, can be
differentiated again with the same correctness — which is what the
final backward pass on the cost does through the alignment term
(double backpropagation). -/
theorem c3_autograd_create_graph (σ : ℕ → ℝ) (pre : List (List Expr)) (ys : List ℕ)
    (hrows : ∀ row ∈ pre, row ≠ [] ∧ ∀ e ∈ row, DiffOK σ e)
    (hn : List.zipWith ceExpr pre ys ≠ []) (xs : List ℕ) (x : ℕ) (hx : x ∈ xs) :
    (sderiv x (lossExpr pre ys) ∈ autogradGrad (lossExpr pre ys) xs ∧
      HasDerivAt (fun t => eval (Function.update σ x t) (lossExpr pre ys))
        (eval σ (sderiv x (lossExpr pre ys))) (σ x)) ∧
      ∀ y : ℕ, DiffOK σ (sderiv x (lossExpr pre ys)) →
        HasDerivAt (fun t => eval (Function.update σ y t) (sderiv x (lossExpr pre ys)))
          (eval σ (sderiv y (sderiv x (lossExpr pre ys)))) (σ y) :=
  ⟨⟨List.mem_map_of_mem _ hx,
      sderiv_correct σ x _ (diffOK_lossExpr σ pre ys hrows hn)⟩,
    fun y hok => sderiv_correct σ y _ hok⟩

theorem c3_witness :
    (sderiv 0 (lossExpr [[.var 0], [.var 0]] [0, 0]) ∈
        autogradGrad (lossExpr [[.var 0], [.var 0]] [0, 0]) [0] ∧
      HasDerivAt (fun t => eval (Function.update (fun _ => (0 : ℝ)) 0 t)
          (lossExpr [[.var 0], [.var 0]] [0, 0]))
        (eval (fun _ => (0 : ℝ)) (sderiv 0 (lossExpr [[.var 0], [.var 0]] [0, 0])))
        ((fun _ => (0 : ℝ)) 0)) ∧
      ∀ y : ℕ, DiffOK (fun _ => (0 : ℝ)) (sderiv 0 (lossExpr [[.var 0], [.var 0]] [0, 0])) →
        HasDerivAt (fun t => eval (Function.update (fun _ => (0 : ℝ)) y t)
            (sderiv 0 (lossExpr [[.var 0], [.var 0]] [0, 0])))
          (eval (fun _ => (0 : ℝ))
            (sderiv y (sderiv 0 (lossExpr [[.var 0], [.var 0]] [0, 0]))))
          ((fun _ => (0 : ℝ)) y) :=
  c3_autograd_create_graph (fun _ => 0) [[.var 0], [.var 0]] [0, 0]
    (by
      intro row hrow
      rcases List.mem_cons.mp hrow with rfl | hrow2
      · exact ⟨by simp, by intro e he; rw [List.mem_singleton] at he; subst he; trivial⟩
      · rw [List.mem_singleton] at hrow2
        subst hrow2
        exact ⟨by simp, by intro e he; rw [List.mem_singleton] at he; subst he; trivial⟩)
    (by simp) [0] 0 (by simp)

end GradAlign
